import Mathlib

/-!
Verification development for the elgamal_bn repository.

The repository implements additively homomorphic ElGamal over the BN254
(alt_bn128) G1 group together with a Fiat-Shamir sigma protocol proving
correct decryption, in `src/public.rs` (the `PublicKey` side).  The
underlying curve and scalar-field arithmetic (the `bn` crate), the hash
function (Keccak-256 from the `sha3` crate), and the `SecretKey` /
`Ciphertext` / error-type modules are external to the provided source and
are modelled from the specification where needed; each such definition is
marked with a doc comment starting with the words Modelled from the spec.

Two models are developed:

* `ElGamalBN`: a concrete, executable model of the BN254 curve arithmetic
  (Jacobian coordinates over the prime field, as the provider uses) and of
  every operation of `src/public.rs`, used for the claims about concrete
  behaviour (verification control flow, challenge transcript, hex encoding
  and decoding, error returns, determinism).

* `GroupModel`: the same encryption, decryption, proving and verification
  logic written over an arbitrary additive commutative group standing for
  the provider group of the specification (section 6 of the spec), used
  for the universally quantified algebraic claims (homomorphism, round
  trip, proof acceptance), which hold for every group satisfying the
  provider contract and hence for the BN254 instance.
-/

set_option maxRecDepth 20000

/-- Decidable equality of fallible results, needed to evaluate the model
on concrete inputs. -/
instance {ε α : Type} [DecidableEq ε] [DecidableEq α] : DecidableEq (Except ε α)
  | .ok a, .ok b =>
    if h : a = b then .isTrue (by rw [h]) else .isFalse (by intro hh; cases hh; exact h rfl)
  | .ok _, .error _ => .isFalse (by intro hh; cases hh)
  | .error _, .ok _ => .isFalse (by intro hh; cases hh)
  | .error e, .error f =>
    if h : e = f then .isTrue (by rw [h]) else .isFalse (by intro hh; cases hh; exact h rfl)

namespace ElGamalBN

/-- Modelled from the spec: the base-field modulus of the BN254 curve used
by the external provider (the `bn` crate).  Field elements are natural
numbers reduced modulo `p`. -/
def p : Nat := 21888242871839275222246405745257275088696311157297823662689037894645226208583

/-- Modelled from the spec: the scalar-field (Fr) modulus, the order of the
BN254 G1 group.  Scalars are natural numbers reduced modulo `r`. -/
def r : Nat := 21888242871839275222246405745257275088548364400416034343698204186575808495617

/-- Base-field addition. -/
def fqAdd (a b : Nat) : Nat := (a + b) % p

/-- Base-field multiplication. -/
def fqMul (a b : Nat) : Nat := a * b % p

/-- Base-field subtraction. -/
def fqSub (a b : Nat) : Nat := (a % p + (p - b % p)) % p

/-- Base-field negation. -/
def fqNeg (a : Nat) : Nat := (p - a % p) % p

/-- Fuel-driven square-and-multiply exponentiation modulo `m`; the fuel
bounds the bit length of the exponent. -/
def powModAux (m : Nat) : Nat → Nat → Nat → Nat → Nat
  | 0, _, _, acc => acc
  | fuel + 1, b, e, acc =>
    if e == 0 then acc
    else powModAux m fuel (b * b % m) (e / 2) (if e % 2 == 1 then acc * b % m else acc)

/-- Modular exponentiation, enough fuel for any 256-bit exponent. -/
def powMod (b e m : Nat) : Nat := powModAux m 256 (b % m) e (1 % m)

/-- Base-field inversion by the Fermat little theorem (the modulus is
prime); the provider exposes it for affine conversion. -/
def fqInv (a : Nat) : Nat := powMod a (p - 2) p

/-- Big-endian byte expansion, fuel-driven: `fuel` output bytes. -/
def beBytesAux : Nat → Nat → List Nat → List Nat
  | 0, _, acc => acc
  | fuel + 1, n, acc => beBytesAux fuel (n / 256) (n % 256 :: acc)

/-- The 32-byte big-endian serialization of a field element value. -/
def beBytes32 (n : Nat) : List Nat := beBytesAux 32 n []

/-- The natural-number value of a big-endian byte string. -/
def beVal (l : List Nat) : Nat := l.foldl (fun acc b => acc * 256 + b) 0

/-- Modelled from the spec: the external transcript hasher (Keccak-256 in
this build variant).  The spec treats the hash as an external collaborator
whose contract is only an ordered byte sequence in, a fixed-length 32-byte
digest out, at least as wide as the scalar field; it is modelled as an
unspecified deterministic digest function of exactly that shape. -/
def keccak256 (input : List Nat) : List Nat :=
  beBytes32 ((input.foldl (fun acc b => acc * 263 + b % 256 + 1) 1) % 2 ^ 256)

/-- Modelled from the spec: failure type of the provider scalar-field
slice interpretation. -/
inductive FieldError
  | InvalidSliceLength
deriving DecidableEq

/-- Modelled from the spec: the provider operation interpreting a byte
slice as a scalar-field element modulo the field order; it fails exactly
when the slice is not 32 bytes long. -/
def frFromSlice (l : List Nat) : Except FieldError Nat :=
  if l.length = 32 then .ok (beVal l % r) else .error .InvalidSliceLength

/-- Modelled from the spec and the usage in `src/public.rs`: the
conversion-error type of the repository (`errors.rs` is not part of the
provided source). -/
inductive ConversionError
  | IncorrectHexString
  | InvalidHexLength
  | InvalidHexConversion
  | AffineConversionFailure
  | HexDecodeError
  | DecodeError
deriving DecidableEq

/-- Modelled from the spec and the usage in `src/public.rs`: the
proof-error type; conversion errors convert into it through the question
mark operator of the source. -/
inductive ProofError
  | VerificationError
  | ConversionFailure (e : ConversionError)
deriving DecidableEq

/-- Modelled from the spec: a G1 group element in the Jacobian coordinate
representation the provider uses internally. -/
structure G1 where
  x : Nat
  y : Nat
  z : Nat
deriving DecidableEq

/-- The representation of the group identity used by the provider. -/
def g1Zero : G1 := ⟨0, 1, 0⟩

/-- The fixed G1 generator of the curve, affine (1, 2). -/
def g1One : G1 := ⟨1, 2, 1⟩

/-- A Jacobian triple represents the identity exactly when its z
coordinate vanishes. -/
def G1.isZero (a : G1) : Bool := a.z % p == 0

/-- Modelled from the spec: Jacobian point doubling on the curve
(curve coefficient a = 0). -/
def g1Double (q : G1) : G1 :=
  let a := fqMul q.x q.x
  let b := fqMul q.y q.y
  let c := fqMul b b
  let t := fqSub (fqSub (fqMul (fqAdd q.x b) (fqAdd q.x b)) a) c
  let d := fqAdd t t
  let e := fqAdd (fqAdd a a) a
  let f := fqMul e e
  let x3 := fqSub f (fqAdd d d)
  let c2 := fqAdd c c
  let c4 := fqAdd c2 c2
  let c8 := fqAdd c4 c4
  let y3 := fqSub (fqMul e (fqSub d x3)) c8
  let yz := fqMul q.y q.z
  ⟨x3, y3, fqAdd yz yz⟩

/-- Modelled from the spec: Jacobian point addition on the curve. -/
def g1Add (q w : G1) : G1 :=
  if q.isZero then w
  else if w.isZero then q
  else
    let z1s := fqMul q.z q.z
    let z2s := fqMul w.z w.z
    let u1 := fqMul q.x z2s
    let u2 := fqMul w.x z1s
    let z1c := fqMul q.z z1s
    let z2c := fqMul w.z z2s
    let s1 := fqMul q.y z2c
    let s2 := fqMul w.y z1c
    if u1 == u2 && s1 == s2 then g1Double q
    else
      let h := fqSub u2 u1
      let ss := fqSub s2 s1
      let i := fqMul (fqAdd h h) (fqAdd h h)
      let j := fqMul h i
      let rr := fqAdd ss ss
      let v := fqMul u1 i
      let s1j := fqMul s1 j
      let x3 := fqSub (fqSub (fqMul rr rr) j) (fqAdd v v)
      let y3 := fqSub (fqMul rr (fqSub v x3)) (fqAdd s1j s1j)
      let z3 := fqMul (fqSub (fqSub (fqMul (fqAdd q.z w.z) (fqAdd q.z w.z)) z1s) z2s) h
      ⟨x3, y3, z3⟩

/-- Modelled from the spec: point negation. -/
def g1Neg (q : G1) : G1 := if q.isZero then q else ⟨q.x, fqNeg q.y, q.z⟩

/-- Modelled from the spec: point subtraction, addition of the negation. -/
def g1Sub (q w : G1) : G1 := g1Add q (g1Neg w)

/-- Fuel-driven binary double-and-add scalar multiplication. -/
def g1MulAux : Nat → G1 → Nat → G1
  | 0, _, _ => g1Zero
  | fuel + 1, base, k =>
    if k == 0 then g1Zero
    else
      let rest := g1MulAux fuel (g1Double base) (k / 2)
      if k % 2 == 1 then g1Add base rest else rest

/-- Modelled from the spec: scalar multiplication of a point by the value
of a scalar-field element (scalars are represented modulo `r`). -/
def g1Mul (q : G1) (s : Nat) : G1 := g1MulAux 256 q (s % r)

/-- Modelled from the spec: group-element equality of two Jacobian
representations (the PartialEq of the provider), by cross-multiplied
comparison of the normalized coordinates. -/
def g1Eq (a b : G1) : Bool :=
  if a.isZero then b.isZero
  else if b.isZero then false
  else
    let z1s := fqMul a.z a.z
    let z2s := fqMul b.z b.z
    fqMul a.x z2s == fqMul b.x z1s &&
      fqMul a.y (fqMul z2s b.z) == fqMul b.y (fqMul z1s a.z)

/-- Modelled from the spec: the canonical affine form of a point, an (x, y)
coordinate pair. -/
structure AffineG1 where
  x : Nat
  y : Nat
deriving DecidableEq

/-- Modelled from the spec: conversion from the Jacobian representation to
the unique affine representative; it fails exactly on the identity, which
has no affine form. -/
def AffineG1.from_jacobian (q : G1) : Option AffineG1 :=
  if q.isZero then none
  else
    let zinv := fqInv q.z
    let zinv2 := fqMul zinv zinv
    some ⟨fqMul q.x zinv2, fqMul q.y (fqMul zinv2 zinv)⟩

/-- Modelled from the spec: the canonical serialization of an affine point
hashed into the transcript, the 32-byte big-endian x coordinate followed
by the 32-byte big-endian y coordinate. -/
def encodeAffine (a : AffineG1) : List Nat := beBytes32 a.x ++ beBytes32 a.y

/-- The `PublicKey` struct of `src/public.rs`: it owns one group point. -/
structure PublicKey where
  point : G1
deriving DecidableEq

/-- The From G1 construction of a public key in `src/public.rs`. -/
def PublicKey.ofPoint (pt : G1) : PublicKey := ⟨pt⟩

/-- The PartialEq implementation of `PublicKey` in `src/public.rs`:
group-element equality of the two points. -/
def pkEq (a b : PublicKey) : Bool := g1Eq a.point b.point

/-- The `Ciphertext` struct (its fields are fixed by the usage in
`src/public.rs`): the public key it was formed under and the pair
(ephemeral point, masked plaintext point). -/
structure Ciphertext where
  pk : PublicKey
  points : G1 × G1
deriving DecidableEq

/-- The `get_point` accessor of `src/public.rs`. -/
def get_point (pk : PublicKey) : G1 := pk.point

/-- The `get_point_affine` operation of `src/public.rs`.  The source
unwraps the affine conversion, so the identity point panics there; the
`none` result of this model stands for that panic, not for a returned
error value. -/
def get_point_affine (pk : PublicKey) : Option AffineG1 :=
  AffineG1.from_jacobian pk.point

/-- The transcript byte string hashed by the verifier in
`src/public.rs` lines 128 to 136: the seven canonical affine
serializations in the order message, ciphertext point 0, ciphertext
point 1, announcement over the generator, announcement over the
ciphertext, generator, public key. -/
def transcriptBytes (mA c1A c2A aGA aCA genA pkA : AffineG1) : List Nat :=
  encodeAffine mA ++ encodeAffine c1A ++ encodeAffine c2A ++ encodeAffine aGA ++
    encodeAffine aCA ++ encodeAffine genA ++ encodeAffine pkA

/-- Lines 120 to 138 of `src/public.rs`: the affine conversions of the
seven transcript elements (each failure surfacing as an
AffineConversionFailure through the question mark operator) followed by
the Keccak-256 digest and its interpretation as a scalar.  The source
unwraps the slice interpretation; the zero default below is proved
unreachable (`frFromSlice` succeeds on every 32-byte digest). -/
def verifyTranscript (pk : PublicKey) (announcement_base_G announcement_base_ctxtp0 : G1)
    (ciphertext : Ciphertext) (message : G1) : Except ProofError Nat :=
  match AffineG1.from_jacobian message with
  | none => .error (.ConversionFailure .AffineConversionFailure)
  | some message_affine =>
    match AffineG1.from_jacobian ciphertext.points.1 with
    | none => .error (.ConversionFailure .AffineConversionFailure)
    | some ctx1_affine =>
      match AffineG1.from_jacobian ciphertext.points.2 with
      | none => .error (.ConversionFailure .AffineConversionFailure)
      | some ctx2_affine =>
        match AffineG1.from_jacobian announcement_base_G with
        | none => .error (.ConversionFailure .AffineConversionFailure)
        | some announcement_g_affine =>
          match AffineG1.from_jacobian announcement_base_ctxtp0 with
          | none => .error (.ConversionFailure .AffineConversionFailure)
          | some announcement_ctxt0_affine =>
            match AffineG1.from_jacobian g1One with
            | none => .error (.ConversionFailure .AffineConversionFailure)
            | some generator_affine =>
              match AffineG1.from_jacobian (get_point pk) with
              | none => .error (.ConversionFailure .AffineConversionFailure)
              | some pk_affine =>
                let digest := keccak256 (transcriptBytes message_affine ctx1_affine
                  ctx2_affine announcement_g_affine announcement_ctxt0_affine
                  generator_affine pk_affine)
                let challenge := match frFromSlice digest with
                  | .ok c => c
                  | .error _ => 0
                .ok challenge

/-- The `verify_correct_decryption_no_Merlin` operation of
`src/public.rs` lines 112 to 146: recompute the challenge from the
transcript, then accept exactly when the two sigma-protocol equations
hold, otherwise return the verification error. -/
def verify_correct_decryption_no_Merlin (pk : PublicKey) (proof : (G1 × G1) × Nat)
    (ciphertext : Ciphertext) (message : G1) : Except ProofError Unit :=
  match verifyTranscript pk proof.1.1 proof.1.2 ciphertext message with
  | .error e => .error e
  | .ok challenge =>
    if g1Eq (g1Mul g1One proof.2) (g1Add proof.1.1 (g1Mul (get_point pk) challenge)) &&
        g1Eq (g1Mul ciphertext.points.1 proof.2)
          (g1Add proof.1.2 (g1Mul (g1Sub ciphertext.points.2 message) challenge)) then
      .ok ()
    else
      .error .VerificationError

/-- Modelled from the spec (refinement definition, following the words of
the specification rather than the source): the challenge is the hash of
the seven elements plaintext, ciphertext ephemeral, ciphertext masked,
announcement 1, announcement 2, generator, public point, each first
converted to its canonical affine serialization, in exactly that order,
with the digest interpreted modulo the scalar-field order; it is undefined
when some element has no affine form. -/
def challengeSpec (plaintext ephemeral masked a1 a2 genPt pkPt : G1) : Option Nat :=
  match AffineG1.from_jacobian plaintext, AffineG1.from_jacobian ephemeral,
      AffineG1.from_jacobian masked, AffineG1.from_jacobian a1,
      AffineG1.from_jacobian a2, AffineG1.from_jacobian genPt,
      AffineG1.from_jacobian pkPt with
  | some pa, some ea, some ma, some a1a, some a2a, some ga, some ka =>
    some (beVal (keccak256 (encodeAffine pa ++ encodeAffine ea ++ encodeAffine ma ++
      encodeAffine a1a ++ encodeAffine a2a ++ encodeAffine ga ++ encodeAffine ka)) % r)
  | _, _, _, _, _, _, _ => none

/-- A hexadecimal digit character, lowercase as the hex encoder of the
source produces. -/
def hexDigitChar (n : Nat) : Char :=
  if n < 10 then Char.ofNat (48 + n) else Char.ofNat (87 + n)

/-- Fuel-driven fixed-width hexadecimal expansion, most significant digit
first. -/
def hexAux : Nat → Nat → List Char → List Char
  | 0, _, acc => acc
  | fuel + 1, n, acc => hexAux fuel (n / 16) (hexDigitChar (n % 16) :: acc)

/-- The 64-digit fixed-width hexadecimal form of a field-element value. -/
def hex64 (n : Nat) : List Char := hexAux 64 n []

/-- Modelled from the spec: the provider hex serialization of a G1 point
(`into_hex` in the source applied to a point), the byte 04 marking the
uncompressed form followed by the affine coordinates, 64 hex digits each;
the identity has no affine form, so the encoding fails on it. -/
def intoHexG1 (q : G1) : Option String :=
  match AffineG1.from_jacobian q with
  | none => none
  | some a => some (String.mk (('0' :: '4' :: []) ++ hex64 a.x ++ hex64 a.y))

/-- Modelled from the spec: the provider hex serialization of a
scalar-field element (`into_hex` applied to an Fr), 64 hex digits of its
canonical value. -/
def intoHexFr (s : Nat) : Option String := some (String.mk (hex64 (s % r)))

/-- The `get_point_as_hex_str` helper of `src/public.rs` lines 164 to 169:
hex digits 2 to 65 of the point encoding with the 0x tag form the x
string, digits 66 onward the y string. -/
def get_point_as_hex_str (point : G1) : Except ConversionError (String × String) :=
  match intoHexG1 point with
  | none => .error .InvalidHexConversion
  | some h =>
    let cs := h.data
    .ok (String.mk ('0' :: 'x' :: ((cs.drop 2).take 64)),
      String.mk ('0' :: 'x' :: cs.drop 66))

/-- The `get_point_hex_string` method of `src/public.rs`. -/
def get_point_hex_string (pk : PublicKey) : Except ConversionError (String × String) :=
  get_point_as_hex_str pk.point

/-- The `get_scalar_as_hex_str` helper of `src/public.rs` lines 172
to 176. -/
def get_scalar_as_hex_str (scalar : Nat) : Except ConversionError String :=
  match intoHexFr scalar with
  | none => .error .InvalidHexConversion
  | some h => .ok (String.mk ('0' :: 'x' :: h.data))

/-- The numeric value of one hexadecimal digit character, either case. -/
def hexDigitVal (c : Char) : Option Nat :=
  if 48 ≤ c.toNat ∧ c.toNat ≤ 57 then some (c.toNat - 48)
  else if 97 ≤ c.toNat ∧ c.toNat ≤ 102 then some (c.toNat - 87)
  else if 65 ≤ c.toNat ∧ c.toNat ≤ 70 then some (c.toNat - 55)
  else none

/-- Modelled from the spec: hexadecimal decoding of a character string to
bytes, failing on an odd length or a character that is not a hex digit. -/
def hexDecode : List Char → Option (List Nat)
  | [] => some []
  | c1 :: c2 :: rest =>
    match hexDigitVal c1, hexDigitVal c2, hexDecode rest with
    | some h, some l, some t => some ((16 * h + l) :: t)
    | _, _, _ => none
  | _ :: [] => none

/-- Modelled from the spec: the provider deserialization of a G1 point
from 65 bytes, the uncompressed tag 04 followed by the two big-endian
coordinates, with the curve-membership check of the provider. -/
def decodeG1 (bytes : List Nat) : Except ConversionError G1 :=
  match bytes with
  | 4 :: rest =>
    if rest.length = 64 then
      let xv := beVal (rest.take 32)
      let yv := beVal (rest.drop 32)
      if xv < p ∧ yv < p ∧ yv * yv % p = (xv * xv % p * xv + 3) % p then
        .ok ⟨xv, yv, 1⟩
      else
        .error .DecodeError
    else
      .error .DecodeError
  | _ => .error .DecodeError

/-- The `from_hex` helper of `src/public.rs` lines 201 to 205 specialized
to points: hex decoding followed by the provider deserialization. -/
def fromHexG1 (s : List Char) : Except ConversionError G1 :=
  match hexDecode s with
  | none => .error .HexDecodeError
  | some bytes => decodeG1 bytes

/-- The `from_hex_string` constructor of `src/public.rs` lines 148
to 160, including its evaluation order: the source slices the first two
bytes of each string before any length check, so a string shorter than
two bytes makes it panic; the `none` result models that panic.  The two
prefix slices happen left to right with short-circuit disjunction, then
both lengths are checked against 66, then the two digit blocks are glued
behind the tag 04 and the point is reconstructed. -/
def from_hex_string (hex_coords : String × String) : Option (Except ConversionError PublicKey) :=
  let c0 := hex_coords.1.data
  let c1 := hex_coords.2.data
  if c0.length < 2 then none
  else if ¬ (c0.take 2 = ['0', 'x']) then some (.error .IncorrectHexString)
  else if c1.length < 2 then none
  else if ¬ (c1.take 2 = ['0', 'x']) then some (.error .IncorrectHexString)
  else if ¬ (c0.length = 66) ∨ ¬ (c1.length = 66) then some (.error .InvalidHexLength)
  else
    let combined := ('0' :: '4' :: []) ++ c0.drop 2 ++ c1.drop 2
    some (match fromHexG1 combined with
      | .error e => .error e
      | .ok pt => .ok (PublicKey.ofPoint pt))

end ElGamalBN

namespace GroupModel

/-- Modelled from the spec: the external group and field provider together
with the transcript hasher (sections 2 and 6 of the spec).  `gen` is the
fixed group generator, `rmod` the scalar-field order, `ser` the canonical
affine serialization of a group element (undefined exactly on elements
without an affine form), and `hash` the transcript digest function. -/
structure Scheme (G : Type) where
  gen : G
  rmod : Nat
  ser : G → Option (List Nat)
  hash : List Nat → List Nat

variable {G : Type} [AddCommGroup G] [DecidableEq G]

/-- The `Ciphertext` struct over the provider group: the public key it was
formed under and the pair (ephemeral point, masked plaintext point). -/
structure CiphertextG (G : Type) where
  pk : G
  points : G × G
deriving DecidableEq

/-- Modelled from the spec: the public key derived from a secret scalar,
the generator scaled by it. -/
def publicKeyOf (S : Scheme G) (sk : Nat) : G := sk • S.gen

/-- The `encrypt` operation of `src/public.rs` lines 61 to 71, with the
ambient randomness source reframed as the explicit scalar argument
`random` as the spec directs: the ephemeral point is the generator scaled
by the randomness and the masked point is the plaintext plus the public
point scaled by the randomness. -/
def encryptG (S : Scheme G) (pk : G) (message : G) (random : Nat) : CiphertextG G :=
  ⟨pk, (random • S.gen, message + random • pk)⟩

/-- Modelled from the spec: the `decrypt` operation of the secret key
(section 4.1), the masked point minus the ephemeral point scaled by the
secret scalar. -/
def decryptG (sk : Nat) (ct : CiphertextG G) : G := ct.points.2 - sk • ct.points.1

/-- Modelled from the spec: homomorphic addition of two ciphertexts,
component-wise point addition of the (ephemeral, masked) pairs. -/
def addCiphertextG (a b : CiphertextG G) : CiphertextG G :=
  ⟨a.pk, (a.points.1 + b.points.1, a.points.2 + b.points.2)⟩

/-- Modelled from the spec: the provider interpretation of a byte slice as
a scalar value modulo the field order, failing exactly when the slice is
not 32 bytes. -/
def frFromSliceG (S : Scheme G) (l : List Nat) : Option Nat :=
  if l.length = 32 then some (ElGamalBN.beVal l % S.rmod) else none

/-- The transcript byte string of the sigma protocol over the provider
group: the canonical serializations of plaintext, ephemeral point, masked
point, the two announcements, the generator and the public point, in
exactly that order, undefined when any element has no affine form. -/
def serTranscript (S : Scheme G) (message c1 c2 a1 a2 pkp : G) : Option (List Nat) :=
  match S.ser message, S.ser c1, S.ser c2, S.ser a1, S.ser a2, S.ser S.gen, S.ser pkp with
  | some mA, some c1A, some c2A, some a1A, some a2A, some gA, some pkA =>
    some (mA ++ c1A ++ c2A ++ a1A ++ a2A ++ gA ++ pkA)
  | _, _, _, _, _, _, _ => none

/-- Modelled from the spec: the `prove_correct_decryption_no_Merlin`
operation of the secret key (section 4.1 of the spec; the private-key
module is not part of the provided source), with the proof blinding
scalar reframed as the explicit argument `k`: announce the generator and
the ephemeral point scaled by `k`, derive the challenge by hashing the
transcript, respond with `k` plus the challenge times the secret scalar
in the scalar field, and surface any missing affine form as a conversion
error. -/
def proveG (S : Scheme G) (sk : Nat) (ct : CiphertextG G) (message : G) (k : Nat) :
    Except ElGamalBN.ConversionError ((G × G) × Nat) :=
  let announcement_g := k • S.gen
  let announcement_ctx := k • ct.points.1
  match serTranscript S message ct.points.1 ct.points.2 announcement_g announcement_ctx
      (sk • S.gen) with
  | none => .error .AffineConversionFailure
  | some t =>
    let challenge := ElGamalBN.beVal (S.hash t) % S.rmod
    .ok ((announcement_g, announcement_ctx), (k + challenge * sk) % S.rmod)

/-- The `verify_correct_decryption_no_Merlin` operation of
`src/public.rs` lines 112 to 146 over the provider group: the seven
affine serializations (a missing affine form surfacing as a conversion
error), the recomputed challenge (the slice interpretation unwrap
defaulting as in the concrete model, proved unreachable for a 32-byte
digest), and acceptance exactly when the two sigma-protocol equations
hold. -/
def verifyG (S : Scheme G) (pk : G) (pr : (G × G) × Nat) (ct : CiphertextG G)
    (message : G) : Except ElGamalBN.ProofError Unit :=
  match serTranscript S message ct.points.1 ct.points.2 pr.1.1 pr.1.2 pk with
  | none => .error (.ConversionFailure .AffineConversionFailure)
  | some t =>
    let challenge := match frFromSliceG S (S.hash t) with
      | some c => c
      | none => 0
    if pr.2 • S.gen = pr.1.1 + challenge • pk ∧
        pr.2 • ct.points.1 = pr.1.2 + challenge • (ct.points.2 - message) then
      .ok ()
    else
      .error .VerificationError

end GroupModel

namespace Witness

/-- Concrete provider instance over the additive group of the integers
modulo 7, used to evaluate the abstract scheme on concrete inputs. -/
def SW : GroupModel.Scheme (ZMod 7) :=
  ⟨1, 7, fun g => some (List.replicate 32 g.val), fun _ => List.replicate 32 0⟩

/-- Concrete provider instance over the integers, used to evaluate the
homomorphism and round-trip statements on concrete inputs. -/
def SZ : GroupModel.Scheme Int :=
  ⟨1, 7, fun g => some (List.replicate 32 g.natAbs), fun _ => List.replicate 32 0⟩

end Witness

namespace ElGamalBN

theorem beBytesAux_length : ∀ (fuel n : Nat) (acc : List Nat),
    (beBytesAux fuel n acc).length = fuel + acc.length := by
  intro fuel
  induction fuel with
  | zero => intro n acc; simp [beBytesAux]
  | succ f ih => intro n acc; rw [beBytesAux, ih]; simp; omega

theorem keccak256_length (l : List Nat) : (keccak256 l).length = 32 := by
  rw [keccak256, beBytes32, beBytesAux_length]
  rfl

theorem frFromSlice_keccak (l : List Nat) :
    frFromSlice (keccak256 l) = .ok (beVal (keccak256 l) % r) := by
  rw [frFromSlice, if_pos (keccak256_length l)]

theorem verifyTranscript_ok (pk : PublicKey) (a1 a2 : G1) (ct : Ciphertext) (msg : G1)
    (mA c1A c2A a1A a2A gA pkA : AffineG1)
    (hm : AffineG1.from_jacobian msg = some mA)
    (hc1 : AffineG1.from_jacobian ct.points.1 = some c1A)
    (hc2 : AffineG1.from_jacobian ct.points.2 = some c2A)
    (ha1 : AffineG1.from_jacobian a1 = some a1A)
    (ha2 : AffineG1.from_jacobian a2 = some a2A)
    (hg : AffineG1.from_jacobian g1One = some gA)
    (hpk : AffineG1.from_jacobian pk.point = some pkA) :
    verifyTranscript pk a1 a2 ct msg =
      .ok (beVal (keccak256 (transcriptBytes mA c1A c2A a1A a2A gA pkA)) % r) := by
  rw [verifyTranscript, hm, hc1, hc2, ha1, ha2, hg]
  rw [get_point, hpk]
  simp only [frFromSlice_keccak]

theorem challengeSpec_eq (pk : PublicKey) (a1 a2 : G1) (ct : Ciphertext) (msg : G1)
    (mA c1A c2A a1A a2A gA pkA : AffineG1)
    (hm : AffineG1.from_jacobian msg = some mA)
    (hc1 : AffineG1.from_jacobian ct.points.1 = some c1A)
    (hc2 : AffineG1.from_jacobian ct.points.2 = some c2A)
    (ha1 : AffineG1.from_jacobian a1 = some a1A)
    (ha2 : AffineG1.from_jacobian a2 = some a2A)
    (hg : AffineG1.from_jacobian g1One = some gA)
    (hpk : AffineG1.from_jacobian pk.point = some pkA) :
    challengeSpec msg ct.points.1 ct.points.2 a1 a2 g1One pk.point =
      some (beVal (keccak256 (transcriptBytes mA c1A c2A a1A a2A gA pkA)) % r) := by
  rw [challengeSpec, hm, hc1, hc2, ha1, ha2, hg, hpk, transcriptBytes]

theorem challengeSpec_some_elim (m c1 c2 a1 a2 g pkp : G1) (e : Nat)
    (h : challengeSpec m c1 c2 a1 a2 g pkp = some e) :
    ∃ mA c1A c2A a1A a2A gA pkA,
      AffineG1.from_jacobian m = some mA ∧
      AffineG1.from_jacobian c1 = some c1A ∧
      AffineG1.from_jacobian c2 = some c2A ∧
      AffineG1.from_jacobian a1 = some a1A ∧
      AffineG1.from_jacobian a2 = some a2A ∧
      AffineG1.from_jacobian g = some gA ∧
      AffineG1.from_jacobian pkp = some pkA ∧
      e = beVal (keccak256 (transcriptBytes mA c1A c2A a1A a2A gA pkA)) % r := by
  rw [challengeSpec] at h
  split at h
  · next pa ea ma a1a a2a ga ka hm hc1 hc2 ha1 ha2 hg hpk =>
    refine ⟨pa, ea, ma, a1a, a2a, ga, ka, hm, hc1, hc2, ha1, ha2, hg, hpk, ?_⟩
    rw [transcriptBytes]
    exact (Option.some.injEq _ _).mp h.symm
  · exact Option.noConfusion h

/-- C1: for every public key, proof, ciphertext and claimed plaintext
whose transcript elements all have defined affine forms (so that the
recomputed challenge e exists), verification returns Ok exactly when both
sigma-protocol equations hold as group-element equalities, and returns
the VerificationError when either fails. -/
theorem verify_accepts_iff_equations (pk : PublicKey) (a1 a2 : G1) (s : Nat)
    (ct : Ciphertext) (msg : G1) (e : Nat)
    (hch : challengeSpec msg ct.points.1 ct.points.2 a1 a2 g1One pk.point = some e) :
    (verify_correct_decryption_no_Merlin pk ((a1, a2), s) ct msg = .ok () ↔
      (g1Eq (g1Mul g1One s) (g1Add a1 (g1Mul pk.point e)) = true ∧
        g1Eq (g1Mul ct.points.1 s)
          (g1Add a2 (g1Mul (g1Sub ct.points.2 msg) e)) = true)) ∧
    (¬ (g1Eq (g1Mul g1One s) (g1Add a1 (g1Mul pk.point e)) = true ∧
        g1Eq (g1Mul ct.points.1 s)
          (g1Add a2 (g1Mul (g1Sub ct.points.2 msg) e)) = true) →
      verify_correct_decryption_no_Merlin pk ((a1, a2), s) ct msg =
        .error .VerificationError) := by
  obtain ⟨mA, c1A, c2A, a1A, a2A, gA, pkA, hm, hc1, hc2, ha1, ha2, hg, hpkk, he⟩ :=
    challengeSpec_some_elim msg ct.points.1 ct.points.2 a1 a2 g1One pk.point e hch
  have hvt := verifyTranscript_ok pk a1 a2 ct msg mA c1A c2A a1A a2A gA pkA
    hm hc1 hc2 ha1 ha2 hg hpkk
  rw [verify_correct_decryption_no_Merlin]
  dsimp only
  rw [hvt, ← he]
  dsimp only [get_point]
  refine ⟨⟨?_, ?_⟩, ?_⟩
  · intro hok
    by_cases hb : (g1Eq (g1Mul g1One s) (g1Add a1 (g1Mul pk.point e)) &&
        g1Eq (g1Mul ct.points.1 s) (g1Add a2 (g1Mul (g1Sub ct.points.2 msg) e))) = true
    · exact (Bool.and_eq_true _ _).mp hb
    · rw [if_neg hb] at hok
      exact Except.noConfusion hok
  · intro hconj
    rw [if_pos ((Bool.and_eq_true _ _).mpr hconj)]
  · intro hn
    rw [if_neg (fun hb => hn ((Bool.and_eq_true _ _).mp hb))]

/-- Witness for C1 at a concrete input with every transcript element the
generator (all affine forms defined). -/
theorem verify_accepts_iff_equations_witness :
    challengeSpec g1One g1One g1One g1One g1One g1One g1One =
      some ((challengeSpec g1One g1One g1One g1One g1One g1One g1One).getD 0) ∧
    (verify_correct_decryption_no_Merlin (PublicKey.ofPoint g1One) ((g1One, g1One), 1)
        ⟨PublicKey.ofPoint g1One, (g1One, g1One)⟩ g1One = .ok () ↔
      (g1Eq (g1Mul g1One 1)
          (g1Add g1One (g1Mul g1One
            ((challengeSpec g1One g1One g1One g1One g1One g1One g1One).getD 0))) = true ∧
        g1Eq (g1Mul g1One 1)
          (g1Add g1One (g1Mul (g1Sub g1One g1One)
            ((challengeSpec g1One g1One g1One g1One g1One g1One g1One).getD 0))) = true)) :=
  ⟨by decide,
    (verify_accepts_iff_equations (PublicKey.ofPoint g1One) g1One g1One 1
      ⟨PublicKey.ofPoint g1One, (g1One, g1One)⟩ g1One
      ((challengeSpec g1One g1One g1One g1One g1One g1One g1One).getD 0) (by decide)).1⟩

/-- C2: for every verification input whose seven transcript elements have
defined affine forms, the challenge computed by the verifier transcript
step succeeds and equals the digest of exactly the seven canonical affine
serializations, in the order plaintext, ephemeral, masked, first
announcement, second announcement, generator, public point, interpreted
modulo the scalar-field order; the interpretation of the 32-byte digest
never fails. -/
theorem challenge_is_spec_hash (pk : PublicKey) (a1 a2 : G1) (ct : Ciphertext)
    (msg : G1) (mA c1A c2A a1A a2A gA pkA : AffineG1)
    (hm : AffineG1.from_jacobian msg = some mA)
    (hc1 : AffineG1.from_jacobian ct.points.1 = some c1A)
    (hc2 : AffineG1.from_jacobian ct.points.2 = some c2A)
    (ha1 : AffineG1.from_jacobian a1 = some a1A)
    (ha2 : AffineG1.from_jacobian a2 = some a2A)
    (hg : AffineG1.from_jacobian g1One = some gA)
    (hpk : AffineG1.from_jacobian pk.point = some pkA) :
    verifyTranscript pk a1 a2 ct msg =
      .ok (beVal (keccak256 (transcriptBytes mA c1A c2A a1A a2A gA pkA)) % r) ∧
    challengeSpec msg ct.points.1 ct.points.2 a1 a2 g1One pk.point =
      some (beVal (keccak256 (transcriptBytes mA c1A c2A a1A a2A gA pkA)) % r) ∧
    frFromSlice (keccak256 (transcriptBytes mA c1A c2A a1A a2A gA pkA)) =
      .ok (beVal (keccak256 (transcriptBytes mA c1A c2A a1A a2A gA pkA)) % r) :=
  ⟨verifyTranscript_ok pk a1 a2 ct msg mA c1A c2A a1A a2A gA pkA
      hm hc1 hc2 ha1 ha2 hg hpk,
    challengeSpec_eq pk a1 a2 ct msg mA c1A c2A a1A a2A gA pkA
      hm hc1 hc2 ha1 ha2 hg hpk,
    frFromSlice_keccak _⟩

/-- Witness for C2 at a concrete input with every transcript element the
generator, whose affine form is the pair (1, 2). -/
theorem challenge_is_spec_hash_witness :
    AffineG1.from_jacobian g1One = some ⟨1, 2⟩ ∧
    (verifyTranscript (PublicKey.ofPoint g1One) g1One g1One
        ⟨PublicKey.ofPoint g1One, (g1One, g1One)⟩ g1One =
      .ok (beVal (keccak256
        (transcriptBytes ⟨1, 2⟩ ⟨1, 2⟩ ⟨1, 2⟩ ⟨1, 2⟩ ⟨1, 2⟩ ⟨1, 2⟩ ⟨1, 2⟩)) % r) ∧
    challengeSpec g1One g1One g1One g1One g1One g1One g1One =
      some (beVal (keccak256
        (transcriptBytes ⟨1, 2⟩ ⟨1, 2⟩ ⟨1, 2⟩ ⟨1, 2⟩ ⟨1, 2⟩ ⟨1, 2⟩ ⟨1, 2⟩)) % r) ∧
    frFromSlice (keccak256
        (transcriptBytes ⟨1, 2⟩ ⟨1, 2⟩ ⟨1, 2⟩ ⟨1, 2⟩ ⟨1, 2⟩ ⟨1, 2⟩ ⟨1, 2⟩)) =
      .ok (beVal (keccak256
        (transcriptBytes ⟨1, 2⟩ ⟨1, 2⟩ ⟨1, 2⟩ ⟨1, 2⟩ ⟨1, 2⟩ ⟨1, 2⟩ ⟨1, 2⟩)) % r)) :=
  ⟨by decide,
    challenge_is_spec_hash (PublicKey.ofPoint g1One) g1One g1One
      ⟨PublicKey.ofPoint g1One, (g1One, g1One)⟩ g1One
      ⟨1, 2⟩ ⟨1, 2⟩ ⟨1, 2⟩ ⟨1, 2⟩ ⟨1, 2⟩ ⟨1, 2⟩ ⟨1, 2⟩
      (by decide) (by decide) (by decide) (by decide) (by decide) (by decide) (by decide)⟩

/-- C6: for the public key whose point is the generator added to itself,
the hex encoding is exactly the stated string pair, and parsing that pair
back yields a public key equal (as a group element) to the original. -/
theorem hex_string_round_trip :
    get_point_hex_string (PublicKey.ofPoint (g1Add g1One g1One)) =
      .ok ("0x030644e72e131a029b85045b68181585d97816a916871ca8d3c208c16d87cfd3",
        "0x15ed738c0e0a7c92e7845f96b2ae9c0a68a6a449e3538fc7ff3ebf7a5a18a2c4") ∧
    from_hex_string
        ("0x030644e72e131a029b85045b68181585d97816a916871ca8d3c208c16d87cfd3",
          "0x15ed738c0e0a7c92e7845f96b2ae9c0a68a6a449e3538fc7ff3ebf7a5a18a2c4") =
      some (.ok (PublicKey.ofPoint
        ⟨1368015179489954701390400359078579693043519447331113978918064868415326638035,
          9918110051302171585080402603319702774565515993150576347155970296011118125764, 1⟩)) ∧
    pkEq
      (PublicKey.ofPoint
        ⟨1368015179489954701390400359078579693043519447331113978918064868415326638035,
          9918110051302171585080402603319702774565515993150576347155970296011118125764, 1⟩)
      (PublicKey.ofPoint (g1Add g1One g1One)) = true := by
  refine ⟨by decide, by decide, by decide⟩

/-- C9: the scalar-field element one encodes as the 0x-prefixed 64-digit
hex string ending in 1. -/
theorem scalar_one_hex :
    get_scalar_as_hex_str 1 =
      .ok ("0x0000000000000000000000000000000000000000000000000000000000000001") := by
  decide

/-- C7 counterexample: on the input pair of empty strings (which lacks the
0x prefix, so the claim asserts a format error), the source slices the
first two bytes of the string before any length check and panics; the
model returns none (the panic marker), not a format-error value. -/
theorem from_hex_short_input_panics : from_hex_string ("", "") = none := by decide

/-- C7 amended: for coordinate strings of at least two characters, if
either string does not start with the 0x prefix or is not exactly 66
characters long, `from_hex_string` returns the IncorrectHexString or the
InvalidHexLength error without attempting curve-point reconstruction;
strings shorter than two bytes instead make the source panic on the
prefix slice. -/
theorem from_hex_rejects_malformed (s1 s2 : String)
    (h1 : 2 ≤ s1.data.length) (h2 : 2 ≤ s2.data.length)
    (hbad : ¬ (s1.data.take 2 = ['0', 'x'] ∧ s2.data.take 2 = ['0', 'x'] ∧
      s1.data.length = 66 ∧ s2.data.length = 66)) :
    from_hex_string (s1, s2) = some (.error .IncorrectHexString) ∨
      from_hex_string (s1, s2) = some (.error .InvalidHexLength) := by
  rw [from_hex_string]
  dsimp only
  rw [if_neg (by omega)]
  by_cases hp1 : s1.data.take 2 = ['0', 'x']
  · rw [if_neg (by simpa using hp1), if_neg (by omega)]
    by_cases hp2 : s2.data.take 2 = ['0', 'x']
    · rw [if_neg (by simpa using hp2)]
      rw [if_pos]
      · exact Or.inr rfl
      · by_cases hl1 : s1.data.length = 66
        · by_cases hl2 : s2.data.length = 66
          · exact absurd ⟨hp1, hp2, hl1, hl2⟩ hbad
          · exact Or.inr hl2
        · exact Or.inl hl1
    · rw [if_pos (by simpa using hp2)]
      exact Or.inl rfl
  · rw [if_pos (by simpa using hp1)]
    exact Or.inl rfl

/-- Witness for the amended C7 at a concrete input: both strings are two
characters long and lack the 0x prefix, and the result is one of the two
format errors. -/
theorem from_hex_rejects_malformed_witness :
    2 ≤ ("xx" : String).data.length ∧ 2 ≤ ("xx" : String).data.length ∧
      (from_hex_string ("xx", "xx") = some (.error .IncorrectHexString) ∨
        from_hex_string ("xx", "xx") = some (.error .InvalidHexLength)) :=
  ⟨by decide, by decide,
    from_hex_rejects_malformed ("xx") ("xx") (by decide) (by decide) (by decide)⟩

/-- C8 counterexample: the claim asserts that `get_point_affine` surfaces
the failed affine conversion of the identity as an AffineConversionFailure
error value, but the source unwraps the conversion, so the identity point
panics there; the none result of the model is that panic marker, and no
error value is returned. -/
theorem get_point_affine_identity_panics :
    get_point_affine (PublicKey.ofPoint g1Zero) = none := by decide

/-- C8 amended: affine-conversion failure of a group element without an
affine form (the identity) is surfaced as an explicit
AffineConversionFailure error value by
`verify_correct_decryption_no_Merlin`, while `get_point_affine` does not
return a result value at all on such input: the source unwraps the failed
conversion and panics (the none of the model). -/
theorem affine_failure_surfaces :
    get_point_affine (PublicKey.ofPoint g1Zero) = none ∧
    ∀ (pk : PublicKey) (pr : (G1 × G1) × Nat) (ct : Ciphertext),
      verify_correct_decryption_no_Merlin pk pr ct g1Zero =
        .error (.ConversionFailure .AffineConversionFailure) := by
  refine ⟨by decide, fun pk pr ct => rfl⟩

end ElGamalBN

namespace GroupModel

theorem smul_mod {G : Type} [AddCommGroup G] (g : G) (n a : Nat) (h : n • g = 0) :
    (a % n) • g = a • g := by
  conv_rhs => rw [← Nat.div_add_mod a n]
  rw [add_smul, Nat.mul_comm, mul_smul, h, smul_zero, zero_add]

theorem sigma_smul {G : Type} [AddCommGroup G] (g : G) (n k e x : Nat)
    (h : n • g = 0) : ((k + e * x) % n) • g = k • g + e • x • g := by
  rw [smul_mod g n _ h, add_smul, mul_smul]

theorem proveG_verifyG {G : Type} [AddCommGroup G] [DecidableEq G]
    (S : Scheme G) (sk k : Nat) (ct : CiphertextG G) (msg : G) (pr : (G × G) × Nat)
    (hord : S.rmod • S.gen = 0)
    (hordc : S.rmod • ct.points.1 = 0)
    (hlen : ∀ l, (S.hash l).length = 32)
    (hmsg : ct.points.2 - msg = sk • ct.points.1)
    (hpr : proveG S sk ct msg k = .ok pr) :
    verifyG S (sk • S.gen) pr ct msg = .ok () := by
  simp only [proveG] at hpr
  cases hser : serTranscript S msg ct.points.1 ct.points.2 (k • S.gen)
      (k • ct.points.1) (sk • S.gen) with
  | none => rw [hser] at hpr; exact Except.noConfusion hpr
  | some t =>
    rw [hser] at hpr
    injection hpr with hpr
    subst hpr
    rw [verifyG]
    dsimp only
    rw [hser]
    dsimp only
    rw [frFromSliceG, if_pos (hlen t)]
    dsimp only
    apply if_pos
    constructor
    · exact sigma_smul S.gen S.rmod k (ElGamalBN.beVal (S.hash t) % S.rmod) sk hord
    · rw [hmsg]
      exact sigma_smul ct.points.1 S.rmod k (ElGamalBN.beVal (S.hash t) % S.rmod) sk hordc

/-- C3: for every key pair (the public key derived from the secret
scalar), every ciphertext produced by encryption under that public key,
and every blinding scalar, a proof generated by the prover for the
decryption of that ciphertext is accepted by the verifier; the provider
contract supplies the generator-order fact and the 32-byte digest width. -/
theorem prove_then_verify_accepts {G : Type} [AddCommGroup G] [DecidableEq G]
    (S : Scheme G) (sk rv k : Nat) (P pk : G) (ct : CiphertextG G) (pr : (G × G) × Nat)
    (hord : S.rmod • S.gen = 0)
    (hlen : ∀ l, (S.hash l).length = 32)
    (hpk : pk = publicKeyOf S sk)
    (hct : ct = encryptG S pk P rv)
    (hpr : proveG S sk ct (decryptG sk ct) k = .ok pr) :
    verifyG S pk pr ct (decryptG sk ct) = .ok () := by
  subst hpk
  subst hct
  apply proveG_verifyG S sk k _ _ pr hord ?_ hlen ?_ hpr
  · simp only [encryptG]
    rw [smul_smul, Nat.mul_comm, mul_smul, hord, smul_zero]
  · simp only [decryptG]
    exact sub_sub_cancel _ _

/-- Witness for C3 at a concrete instance of the provider contract: the
additive group of the integers modulo 7 with generator 1. -/
theorem prove_then_verify_accepts_witness :
    Witness.SW.rmod • Witness.SW.gen = 0 ∧
    (3 : ZMod 7) = publicKeyOf Witness.SW 3 ∧
    proveG Witness.SW 3 (encryptG Witness.SW 3 5 2)
      (decryptG 3 (encryptG Witness.SW 3 5 2)) 4 = .ok ((4, 1), 4) ∧
    verifyG Witness.SW 3 ((4, 1), 4) (encryptG Witness.SW 3 5 2)
      (decryptG 3 (encryptG Witness.SW 3 5 2)) = .ok () :=
  ⟨by decide, by decide, by decide,
    prove_then_verify_accepts Witness.SW 3 2 4 5 3 (encryptG Witness.SW 3 5 2)
      ((4, 1), 4) (by decide) (fun l => by simp [Witness.SW]) (by decide) rfl (by decide)⟩

/-- C4: for every key pair, all plaintexts and all randomness consumed by
the two encryptions, decrypting the component-wise sum of the two
ciphertexts yields the sum of the plaintexts. -/
theorem decrypt_add_homomorphism {G : Type} [AddCommGroup G] [DecidableEq G]
    (S : Scheme G) (sk r1 r2 : Nat) (P1 P2 pk : G)
    (hpk : pk = publicKeyOf S sk) :
    decryptG sk (addCiphertextG (encryptG S pk P1 r1) (encryptG S pk P2 r2)) =
      P1 + P2 := by
  subst hpk
  rw [decryptG, addCiphertextG, encryptG, encryptG, publicKeyOf]
  dsimp only
  rw [smul_add]
  rw [smul_smul sk r1, smul_smul sk r2, smul_smul r1 sk, smul_smul r2 sk,
    Nat.mul_comm sk r1, Nat.mul_comm sk r2]
  abel

/-- Witness for C4 at a concrete instance of the provider contract, the
additive group of the integers with generator 1. -/
theorem decrypt_add_homomorphism_witness :
    (3 : Int) = publicKeyOf Witness.SZ 3 ∧
    decryptG 3 (addCiphertextG (encryptG Witness.SZ 3 5 2) (encryptG Witness.SZ 3 9 4)) =
      5 + 9 :=
  ⟨by decide, decrypt_add_homomorphism Witness.SZ 3 2 4 5 9 3 (by decide)⟩

/-- C5: for every secret scalar with derived public key, every plaintext
and every encryption randomness, the ciphertext is exactly the pair
(generator times randomness, plaintext plus public point times
randomness), and decryption recovers the plaintext exactly. -/
theorem encrypt_shape_and_round_trip {G : Type} [AddCommGroup G] [DecidableEq G]
    (S : Scheme G) (sk rv : Nat) (P pk : G)
    (hpk : pk = publicKeyOf S sk) :
    (encryptG S pk P rv).points = (rv • S.gen, P + rv • pk) ∧
    decryptG sk (encryptG S pk P rv) = P := by
  subst hpk
  refine ⟨rfl, ?_⟩
  rw [decryptG, encryptG, publicKeyOf]
  dsimp only
  rw [smul_smul, smul_smul, Nat.mul_comm sk rv]
  abel

/-- Witness for C5 at a concrete instance of the provider contract, the
additive group of the integers with generator 1. -/
theorem encrypt_shape_and_round_trip_witness :
    (3 : Int) = publicKeyOf Witness.SZ 3 ∧
    ((encryptG Witness.SZ 3 5 2).points = (2 • Witness.SZ.gen, 5 + 2 • (3 : Int)) ∧
      decryptG 3 (encryptG Witness.SZ 3 5 2) = 5) :=
  ⟨by decide, encrypt_shape_and_round_trip Witness.SZ 3 2 5 3 (by decide)⟩

end GroupModel

namespace ElGamalBN

/-- C10: verification is a pure function of its four arguments; two
invocations with equal arguments produce the same outcome. -/
theorem verify_deterministic (pk1 pk2 : PublicKey) (pr1 pr2 : (G1 × G1) × Nat)
    (ct1 ct2 : Ciphertext) (m1 m2 : G1)
    (h : (pk1, pr1, ct1, m1) = (pk2, pr2, ct2, m2)) :
    verify_correct_decryption_no_Merlin pk1 pr1 ct1 m1 =
      verify_correct_decryption_no_Merlin pk2 pr2 ct2 m2 := by
  simp only [Prod.mk.injEq] at h
  obtain ⟨e1, e2, e3, e4⟩ := h
  rw [e1, e2, e3, e4]

/-- Witness for C10 at a concrete argument tuple. -/
theorem verify_deterministic_witness :
    ((PublicKey.ofPoint g1One, ((g1One, g1One), 1),
        (⟨PublicKey.ofPoint g1One, (g1One, g1One)⟩ : Ciphertext), g1One) =
      (PublicKey.ofPoint g1One, ((g1One, g1One), 1),
        (⟨PublicKey.ofPoint g1One, (g1One, g1One)⟩ : Ciphertext), g1One)) ∧
    verify_correct_decryption_no_Merlin (PublicKey.ofPoint g1One) ((g1One, g1One), 1)
        ⟨PublicKey.ofPoint g1One, (g1One, g1One)⟩ g1One =
      verify_correct_decryption_no_Merlin (PublicKey.ofPoint g1One) ((g1One, g1One), 1)
        ⟨PublicKey.ofPoint g1One, (g1One, g1One)⟩ g1One :=
  ⟨rfl, verify_deterministic _ _ _ _ _ _ _ _ rfl⟩

end ElGamalBN
